import Mathlib

/-!
Verification development for the KDD2025 conference-agenda scraper
(`src/scraper/kdd2025/`).  The pure decision logic of the extraction
scripts is embedded shallowly: Python strings become `String`/`List Char`,
the two regular expressions used by the extractors become explicit
deterministic matchers, fallible browser calls become `Except`/`Option`
values, and the stateful loops of `main` become folds over explicit
input traces.  Unicode-only behaviour of Python's `re`/`str.lower`
(non-ASCII letters) is outside the embedded fragment; all inputs used in
the theorems are ASCII, where the semantics coincide.
-/

namespace ConfStats

/-! ### Character classes (Python `\s`, `\w`, `str.strip`) -/

/-- Python `\s` on the characters that occur in the scraped text:
space, tab, newline, carriage return, vertical tab, form feed, NBSP. -/
def isPySpace (c : Char) : Bool :=
  c = ' ' ∨ c = '\t' ∨ c = '\n' ∨ c = '\r' ∨
  c = Char.ofNat 11 ∨ c = Char.ofNat 12 ∨ c = Char.ofNat 160

/-- Python `\w` (ASCII fragment): letters, digits, underscore. -/
def isWordChar (c : Char) : Bool := c.isAlphanum || c = '_'

/-- The dash alternatives of `TIME_PAT`: hyphen, en dash, em dash. -/
def isDashC (c : Char) : Bool := c = '-' ∨ c = '–' ∨ c = '—'

/-- Characters stripped by `.strip(" -–—")` in the title cleanup. -/
def isDashSpace (c : Char) : Bool := c = ' ' ∨ c = '-' ∨ c = '–' ∨ c = '—'

/-! ### `nrm`: `re.sub(r"\s+", " ", s.strip())` -/

/-- Python `str.strip()` on a character list. -/
def stripWs (l : List Char) : List Char :=
  ((l.dropWhile isPySpace).reverse.dropWhile isPySpace).reverse

/-- Collapse each run of whitespace to a single space.  The flag records
whether the previous character was whitespace. -/
def collapseWsAux : Bool → List Char → List Char
  | _, [] => []
  | inWs, c :: r =>
    if isPySpace c then
      if inWs then collapseWsAux true r else ' ' :: collapseWsAux true r
    else c :: collapseWsAux false r

/-- `nrm(s) = re.sub(r"\s+", " ", (s or "").strip())`
(`scrape_events_whova_resilient.py:31`). -/
def nrm (s : String) : String := String.mk (collapseWsAux false (stripWs s.data))

/-- Python `str.lower()` (ASCII fragment), used to build identity keys. -/
def lowerStr (s : String) : String := String.mk (s.data.map Char.toLower)

/-- `.strip(" -–—")` applied after time-substring removal. -/
def stripDashSpace (s : String) : String :=
  String.mk (((s.data.dropWhile isDashSpace).reverse.dropWhile isDashSpace).reverse)

/-! ### `TIME_PAT`

`(?i)\b\d{1,2}:\d{2}\s?(?:am|pm)\s?[-–—]\s?\d{1,2}:\d{2}\s?(?:am|pm)\b`

Every quantifier in this pattern is forced by the following literal
(`:` is not a digit, a dash and `a`/`p` are not whitespace), so Python's
backtracking search is equivalent to the deterministic matcher below. -/

/-- Consume at most one whitespace character (`\s?`). -/
def skipOneWs : List Char → List Char
  | [] => []
  | c :: r => if isPySpace c then r else c :: r

/-- Consume `\s?(?:am|pm)` case-insensitively; return the rest. -/
def chompMeridiem (cs : List Char) : Option (List Char) :=
  match skipOneWs cs with
  | a :: m :: r =>
    if (a.toLower = 'a' ∨ a.toLower = 'p') ∧ m.toLower = 'm' then some r else none
  | _ => none

/-- Consume `\d{1,2}:\d{2}\s?(?:am|pm)`; return the rest. -/
def chompClock : List Char → Option (List Char)
  | d1 :: ':' :: m1 :: m2 :: r =>
    if d1.isDigit ∧ m1.isDigit ∧ m2.isDigit then chompMeridiem r else none
  | d1 :: d2 :: ':' :: m1 :: m2 :: r =>
    if d1.isDigit ∧ d2.isDigit ∧ m1.isDigit ∧ m2.isDigit then chompMeridiem r else none
  | _ => none

/-- Match the whole `TIME_PAT` body starting at the current position,
including the trailing `\b` (the match always ends in `m`, a word
character, so the boundary requires the next character to be non-word).
The leading `\b` is checked by the callers. -/
def matchTimeFrom (cs : List Char) : Option (List Char) :=
  match chompClock cs with
  | none => none
  | some r1 =>
    match skipOneWs r1 with
    | [] => none
    | c :: r2 =>
      if isDashC c then
        match chompClock (skipOneWs r2) with
        | none => none
        | some r4 =>
          match r4 with
          | [] => some []
          | d :: _ => if isWordChar d then none else some r4
      else none

/-- `TIME_PAT.search`: scan every position whose predecessor is not a
word character (the leading `\b`; the first matched character is a
digit). -/
def timeSearchAux : Bool → List Char → Bool
  | _, [] => false
  | pw, c :: r =>
    if pw = false ∧ (matchTimeFrom (c :: r)).isSome then true
    else timeSearchAux (isWordChar c) r

/-- `TIME_PAT.search(s)` as a Boolean. -/
def timeSearch (s : String) : Bool := timeSearchAux false s.data

/-- `TIME_PAT.fullmatch(s)` as a Boolean. -/
def timeFullmatch (s : String) : Bool := matchTimeFrom s.data = some []

/-- `TIME_PAT.sub("", s)`: drop every leftmost non-overlapping match.
The fuel argument bounds the recursion (each step consumes at least one
character, so `length + 1` fuel always suffices). -/
def timeSubAux : Nat → Bool → List Char → List Char
  | 0, _, cs => cs
  | _ + 1, _, [] => []
  | fuel + 1, pw, c :: r =>
    if pw = false then
      match matchTimeFrom (c :: r) with
      | some rest => timeSubAux fuel true rest
      | none => c :: timeSubAux fuel (isWordChar c) r
    else c :: timeSubAux fuel (isWordChar c) r

/-- `TIME_PAT.sub("", s)`. -/
def timeSub (s : String) : String :=
  String.mk (timeSubAux (s.data.length + 1) false s.data)

/-! ### The extracted record and the final filter

`extract_event_from_session` (`scrape_events_whova_resilient.py:295-302`)
and `extract_one` (`scrape_events_whova_clickurl.py:300-309`) end with
the same candidate filter, embedded as `finalizeEvent`. -/

/-- The `Event` dataclass shared by the extraction scripts. -/
structure Event where
  title : String
  time : String
  location : String
  tags : List String
  url : String
deriving DecidableEq

/-- The title cleanup applied when the resolved title still matches the
time pattern: `nrm(TIME_PAT.sub("", title)).strip(" -–—")`. -/
def stripTitleTime (title : String) : String := stripDashSpace (nrm (timeSub title))

/-- Tail of `extract_event_from_session` / `extract_one`: discard a
candidate with every identifying field empty, then clean a title that
still matches the time pattern, discarding the record if nothing
remains. -/
def finalizeEvent (title time_str location url : String) (tags : List String) :
    Option Event :=
  if title = "" ∧ time_str = "" ∧ location = "" ∧ url = "" then none
  else if title ≠ "" ∧ timeSearch title = true then
    let t := stripTitleTime title
    if t = "" then none else some ⟨t, time_str, location, tags, url⟩
  else some ⟨title, time_str, location, tags, url⟩

example : timeSearch "9:00 AM - 10:30 AM Opening Remarks" = true := by rfl
example : timeFullmatch "9:00 AM - 10:30 AM" = true := by rfl
example : timeFullmatch "9:00 AM - 10:30 AM x" = false := by rfl
example : stripTitleTime "9:00 AM - 10:30 AM Opening Remarks" = "Opening Remarks" := by rfl
example : stripTitleTime "9:00 AM - 10:30 AM" = "" := by rfl
example : nrm "  a   b " = "a b" := by rfl

/-- C1: every record returned by the per-card extraction has at least one
of title, time, location, url non-empty, and a candidate with all four
empty is discarded regardless of its tags
(`scrape_events_whova_resilient.py:295-296`,
`scrape_events_whova_clickurl.py:300-301`). -/
theorem extractor_discards_all_empty_candidates :
    (∀ (title ts loc url : String) (tags : List String) (ev : Event),
        finalizeEvent title ts loc url tags = some ev →
        (ev.title ≠ "" ∨ ev.time ≠ "" ∨ ev.location ≠ "" ∨ ev.url ≠ "")) ∧
    (∀ tags : List String, finalizeEvent "" "" "" "" tags = none) := by
  constructor
  · intro title ts loc url tags ev h
    by_cases h0 : title = "" ∧ ts = "" ∧ loc = "" ∧ url = ""
    · simp [finalizeEvent, h0] at h
    · rw [finalizeEvent, if_neg h0] at h
      by_cases h1 : title ≠ "" ∧ timeSearch title = true
      · rw [if_pos h1] at h
        dsimp only at h
        split at h
        · exact absurd h (by simp)
        · rename_i h2
          injection h with h
          subst h
          exact Or.inl h2
      · rw [if_neg h1] at h
        injection h with h
        subst h
        have hgoal : title ≠ "" ∨ ts ≠ "" ∨ loc ≠ "" ∨ url ≠ "" := by tauto
        exact hgoal
  · intro tags
    simp [finalizeEvent]

/-- Witness for C1 at a concrete extracted record. -/
theorem extractor_discards_all_empty_candidates_witness :
    ((⟨"Talk", "", "", [], ""⟩ : Event).title ≠ "" ∨
     (⟨"Talk", "", "", [], ""⟩ : Event).time ≠ "" ∨
     (⟨"Talk", "", "", [], ""⟩ : Event).location ≠ "" ∨
     (⟨"Talk", "", "", [], ""⟩ : Event).url ≠ "") :=
  extractor_discards_all_empty_candidates.1 "Talk" "" "" "" [] ⟨"Talk", "", "", [], ""⟩ (by rfl)

/-- C4: a candidate whose resolved title still matches the time pattern
has the matched substrings removed and boundary punctuation trimmed; if
nothing remains of the title the record is discarded
(`scrape_events_whova_resilient.py:297-300`,
`scrape_events_whova_clickurl.py:303-307`). -/
theorem title_time_stripping (title ts loc url : String) (tags : List String)
    (hne : title ≠ "") (hm : timeSearch title = true) :
    (stripTitleTime title = "" → finalizeEvent title ts loc url tags = none) ∧
    (stripTitleTime title ≠ "" →
      finalizeEvent title ts loc url tags =
        some ⟨stripTitleTime title, ts, loc, tags, url⟩) := by
  have h0 : ¬(title = "" ∧ ts = "" ∧ loc = "" ∧ url = "") := fun h => hne h.1
  constructor
  · intro h2
    rw [finalizeEvent, if_neg h0, if_pos ⟨hne, hm⟩]
    simp [h2]
  · intro h2
    rw [finalizeEvent, if_neg h0, if_pos ⟨hne, hm⟩]
    simp [h2]

/-- Witness for C4: the spec's own example title is cleaned to
"Opening Remarks", and a title that is nothing but the time pattern is
discarded. -/
theorem title_time_stripping_witness :
    finalizeEvent "9:00 AM - 10:30 AM Opening Remarks" "" "" "" [] =
      some ⟨"Opening Remarks", "", "", [], ""⟩ ∧
    finalizeEvent "9:00 AM - 10:30 AM" "x" "" "" [] = none := by
  constructor
  · exact (title_time_stripping "9:00 AM - 10:30 AM Opening Remarks" "" "" "" []
      (by decide) (by rfl)).2 (by decide)
  · exact (title_time_stripping "9:00 AM - 10:30 AM" "x" "" "" []
      (by decide) (by rfl)).1 (by decide)

/-! ### Merge by identity key (`scrape_events_frames.py:316-331`) -/

/-- Python code-point lexicographic `<` on strings. -/
def strLtB : List Char → List Char → Bool
  | [], [] => false
  | [], _ :: _ => true
  | _ :: _, [] => false
  | a :: as, b :: bs =>
    if a.val < b.val then true else if b.val < a.val then false else strLtB as bs

/-- Python `<=` on strings. -/
def pyStrLe (a b : String) : Bool := !strLtB b.data a.data

/-- Insert into an ascending list. -/
def insSorted (x : String) : List String → List String
  | [] => [x]
  | y :: r => if pyStrLe x y then x :: y :: r else y :: insSorted x r

/-- Ascending sort of a string list (insertion sort). -/
def pySorted (l : List String) : List String := l.foldr insSorted []

/-- Keep the first occurrence of each element. -/
def dedupFirst (l : List String) : List String :=
  l.foldl (fun acc t => if t ∈ acc then acc else acc ++ [t]) []

/-- Python `sorted(set(l))`: the distinct elements in ascending order. -/
def pySortedSet (l : List String) : List String := pySorted (dedupFirst l)

/-- Identity key `(nrm(title).lower(), nrm(time).lower())`. -/
def eventKey (e : Event) : String × String :=
  (lowerStr (nrm e.title), lowerStr (nrm e.time))

/-- One merge of a later record `e` into the seed record `a` holding the
same identity key: backfill empty `url`/`location`, and replace `tags`
by `sorted(set(a.tags + e.tags))` only when `e.tags` is non-empty
(`scrape_events_frames.py:320-328`). -/
def merge2 (a e : Event) : Event :=
  { a with
    url := if a.url = "" ∧ e.url ≠ "" then e.url else a.url
    location := if a.location = "" ∧ e.location ≠ "" then e.location else a.location
    tags := if e.tags ≠ [] then pySortedSet (a.tags ++ e.tags) else a.tags }

/-- Seed record of the C3 counterexample: unsorted tag list. -/
def evSeedC3 : Event := ⟨"Talk", "9:00 AM - 10:00 AM", "", ["b", "a"], ""⟩

/-- Later record of the C3 counterexample: same key, no tags (as produced
by the plain-text strategy `extract_via_text`). -/
def evLaterC3 : Event := ⟨"Talk", "9:00 AM - 10:00 AM", "", [], ""⟩

/-- C3 counterexample: merging a tagged seed with a same-key record whose
tag list is empty leaves the seed's tags in insertion order, which is not
the sorted union of the input tag lists, and the result depends on the
arrival order. -/
theorem merge_tags_not_sorted_union_cex :
    eventKey evSeedC3 = eventKey evLaterC3 ∧
    (merge2 evSeedC3 evLaterC3).tags = ["b", "a"] ∧
    pySortedSet (evSeedC3.tags ++ evLaterC3.tags) = ["a", "b"] ∧
    (merge2 evSeedC3 evLaterC3).tags ≠ pySortedSet (evSeedC3.tags ++ evLaterC3.tags) ∧
    (merge2 evSeedC3 evLaterC3).tags ≠ (merge2 evLaterC3 evSeedC3).tags :=
  ⟨by rfl, by rfl, by rfl, by decide, by decide⟩

/-- `s.lower()` is empty iff `s` is. -/
theorem lowerStr_eq_empty_iff (s : String) : lowerStr s = "" ↔ s = "" := by
  obtain ⟨d⟩ := s
  constructor
  · intro h
    have h2 : d.map Char.toLower = [] := congrArg String.data h
    have h3 : d = [] := by simpa using h2
    subst h3
    rfl
  · intro h
    have h3 : d = [] := congrArg String.data h
    subst h3
    rfl

/-- C3 (amended): for records with the same identity key, the merged
`url` and `location` are non-empty iff they are non-empty in at least one
input, the merged title/time are non-blank iff the inputs' are (they are
the seed's verbatim); `tags` equals the sorted deduplicated union only
when the later record's tag list is non-empty, and is the seed's tag
list unchanged otherwise. -/
theorem merge_backfill_amended (a e : Event) (hk : eventKey a = eventKey e) :
    ((merge2 a e).url ≠ "" ↔ (a.url ≠ "" ∨ e.url ≠ "")) ∧
    ((merge2 a e).location ≠ "" ↔ (a.location ≠ "" ∨ e.location ≠ "")) ∧
    (nrm (merge2 a e).title ≠ "" ↔ (nrm a.title ≠ "" ∨ nrm e.title ≠ "")) ∧
    (nrm (merge2 a e).time ≠ "" ↔ (nrm a.time ≠ "" ∨ nrm e.time ≠ "")) ∧
    (e.tags ≠ [] → (merge2 a e).tags = pySortedSet (a.tags ++ e.tags)) ∧
    (e.tags = [] → (merge2 a e).tags = a.tags) := by
  have htitle : lowerStr (nrm a.title) = lowerStr (nrm e.title) := congrArg Prod.fst hk
  have htime : lowerStr (nrm a.time) = lowerStr (nrm e.time) := congrArg Prod.snd hk
  have htitle2 : nrm a.title = "" ↔ nrm e.title = "" := by
    rw [← lowerStr_eq_empty_iff (nrm a.title), htitle, lowerStr_eq_empty_iff]
  have htime2 : nrm a.time = "" ↔ nrm e.time = "" := by
    rw [← lowerStr_eq_empty_iff (nrm a.time), htime, lowerStr_eq_empty_iff]
  refine ⟨?_, ?_, ?_, ?_, ?_, ?_⟩
  · simp only [merge2]
    by_cases ha : a.url = "" <;> by_cases he : e.url = "" <;> simp [ha, he]
  · simp only [merge2]
    by_cases ha : a.location = "" <;> by_cases he : e.location = "" <;> simp [ha, he]
  · show nrm a.title ≠ "" ↔ (nrm a.title ≠ "" ∨ nrm e.title ≠ "")
    tauto
  · show nrm a.time ≠ "" ↔ (nrm a.time ≠ "" ∨ nrm e.time ≠ "")
    tauto
  · intro h
    simp [merge2, h]
  · intro h
    simp [merge2, h]

/-- Witness for the amended C3 at a concrete same-key pair. -/
theorem merge_backfill_amended_witness :
    ((merge2 evSeedC3 evLaterC3).url ≠ "" ↔ (evSeedC3.url ≠ "" ∨ evLaterC3.url ≠ "")) ∧
    ((merge2 evSeedC3 evLaterC3).tags = evSeedC3.tags) :=
  ⟨(merge_backfill_amended evSeedC3 evLaterC3 (by rfl)).1,
   (merge_backfill_amended evSeedC3 evLaterC3 (by rfl)).2.2.2.2.2 (by rfl)⟩

/-! ### Tag extraction (`scrape_events_whova_resilient.py:244-261`,
`scrape_events_whova_clickurl.py:263-281`) -/

/-- The alternatives of the chip filter regex
`(?i)\b(location|room|hall|venue|time|am|pm)\b`. -/
def tagStopWords : List (List Char) :=
  ["location".data, "room".data, "hall".data, "venue".data,
   "time".data, "am".data, "pm".data]

/-- Case-insensitive literal match; returns the rest on success. -/
def matchWordCI : List Char → List Char → Option (List Char)
  | [], rest => some rest
  | _ :: _, [] => none
  | p :: ps, c :: cs => if c.toLower = p then matchWordCI ps cs else none

/-- Does a stop word occur at this position with a trailing word
boundary? -/
def stopWordAt (cs : List Char) : Bool :=
  tagStopWords.any fun w =>
    match matchWordCI w cs with
    | some [] => true
    | some (c :: _) => !isWordChar c
    | none => false

/-- Scan of the chip filter regex: every position whose predecessor is
not a word character (the stop words start with letters). -/
def tagStopSearchAux : Bool → List Char → Bool
  | _, [] => false
  | pw, c :: r =>
    if pw = false ∧ stopWordAt (c :: r) then true
    else tagStopSearchAux (isWordChar c) r

/-- `re.search(r"(?i)\b(location|room|hall|venue|time|am|pm)\b", s)`. -/
def tagStopSearch (s : String) : Bool := tagStopSearchAux false s.data

/-- One iteration of the chip loop: normalize, skip an empty or
location/time-like chip, keep a candidate of 2-40 characters that was
not already collected. -/
def tagStep (acc : List String) (chip : String) : List String :=
  if nrm chip = "" then acc
  else if tagStopSearch (nrm chip) then acc
  else if 2 ≤ (nrm chip).length ∧ (nrm chip).length ≤ 40 ∧ nrm chip ∉ acc then
    acc ++ [nrm chip]
  else acc

/-- The structured per-card tag extraction: only the first
`min(chips.count(), 20)` chip elements are scanned. -/
def extractTags (chips : List String) : List String :=
  (chips.take 20).foldl tagStep []

theorem tagStep_eq (acc : List String) (chip : String) :
    tagStep acc chip = acc ∨
    (tagStep acc chip = acc ++ [nrm chip] ∧ 2 ≤ (nrm chip).length ∧
      (nrm chip).length ≤ 40 ∧ nrm chip ∉ acc) := by
  unfold tagStep
  split
  · exact Or.inl rfl
  split
  · exact Or.inl rfl
  split
  · rename_i h
    exact Or.inr ⟨rfl, h.1, h.2.1, h.2.2⟩
  · exact Or.inl rfl

theorem extractTags_aux (l : List String) :
    ∀ acc : List String,
      acc.Nodup → (∀ t ∈ acc, 2 ≤ t.length ∧ t.length ≤ 40) →
      (l.foldl tagStep acc).length ≤ acc.length + l.length ∧
      (l.foldl tagStep acc).Nodup ∧
      (∀ t ∈ l.foldl tagStep acc, 2 ≤ t.length ∧ t.length ≤ 40) := by
  induction l with
  | nil =>
    intro acc h1 h2
    exact ⟨by simp, h1, h2⟩
  | cons c r ih =>
    intro acc h1 h2
    rcases tagStep_eq acc c with h | ⟨heq, hlen1, hlen2, hmem⟩
    · rw [List.foldl_cons, h]
      obtain ⟨ihl, ihn, ihb⟩ := ih acc h1 h2
      exact ⟨by simpa using Nat.le_succ_of_le ihl, ihn, ihb⟩
    · rw [List.foldl_cons, heq]
      have hnd : (acc ++ [nrm c]).Nodup := by
        rw [List.nodup_append]
        refine ⟨h1, List.nodup_singleton _, ?_⟩
        intro a ha hb
        rw [List.mem_singleton] at hb
        subst hb
        exact hmem ha
      have hbv : ∀ t ∈ acc ++ [nrm c], 2 ≤ t.length ∧ t.length ≤ 40 := by
        intro t ht
        rcases List.mem_append.1 ht with h | h
        · exact h2 t h
        · rw [List.mem_singleton] at h
          subst h
          exact ⟨hlen1, hlen2⟩
      obtain ⟨ihl, ihn, ihb⟩ := ih (acc ++ [nrm c]) hnd hbv
      refine ⟨?_, ihn, ihb⟩
      calc (r.foldl tagStep (acc ++ [nrm c])).length
          ≤ (acc ++ [nrm c]).length + r.length := ihl
        _ = acc.length + (c :: r).length := by simp [Nat.add_assoc, Nat.add_comm 1 r.length]
        _ ≤ acc.length + (c :: r).length := Nat.le_refl _

/-- C10: the structured per-card tag extraction keeps at most 20 tags
(only the first 20 chip elements are scanned), each kept tag is 2 to 40
characters long, and the list holds no duplicates. -/
theorem tags_bounded (chips : List String) :
    (extractTags chips).length ≤ 20 ∧ (extractTags chips).Nodup ∧
    ∀ t ∈ extractTags chips, 2 ≤ t.length ∧ t.length ≤ 40 := by
  obtain ⟨hl, hn, hb⟩ := extractTags_aux (chips.take 20) [] List.nodup_nil (by simp)
  refine ⟨?_, hn, hb⟩
  have htake : (chips.take 20).length ≤ 20 := by
    rw [List.length_take]
    exact min_le_left _ _
  calc (extractTags chips).length ≤ [].length + (chips.take 20).length := hl
    _ ≤ 20 := by simp [htake]

/-- Witness for C10 on a concrete chip list with a duplicate. -/
theorem tags_bounded_witness :
    extractTags ["ML", "ML", "AI"] = ["ML", "AI"] ∧
    ((extractTags ["ML", "ML", "AI"]).length ≤ 20 ∧
     (extractTags ["ML", "ML", "AI"]).Nodup ∧
     ∀ t ∈ extractTags ["ML", "ML", "AI"], 2 ≤ t.length ∧ t.length ≤ 40) :=
  ⟨by rfl, tags_bounded ["ML", "ML", "AI"]⟩

/-! ### Checkpoint resume and the dedup-collect loop
(`scrape_events_whova_resilient.py:341-349` and `407-418`,
`scrape_subsessions_resilient.py:279-281`) -/

/-- State of the session loop: collected events and the seen-key set
(kept as a list; the code uses a Python set, only membership matters). -/
structure CollectState where
  collected : List Event
  seen : List (String × String)
deriving DecidableEq

/-- One iteration of the session loop after extraction: a returned event
is appended only when its identity key is not yet seen; the key is then
recorded. -/
def collectStep (st : CollectState) (ev : Option Event) : CollectState :=
  match ev with
  | none => st
  | some e =>
    if eventKey e ∈ st.seen then st
    else ⟨st.collected ++ [e], st.seen ++ [eventKey e]⟩

/-- The session loop of `main`, started from the checkpoint keys loaded
out of the partial file. -/
def runCollect (init : List (String × String)) (cards : List (Option Event)) :
    CollectState :=
  cards.foldl collectStep ⟨[], init⟩

/-- Per-iteration action of the session loop.  Extraction runs for every
card — `ev = extract_event_from_session(fr, i, ...)` precedes any key
check — so each constructor records an extraction. -/
inductive LoopAction
  | extractAndAdd (e : Event)
  | extractAndSkip (e : Event)
  | extractNone
deriving DecidableEq

/-- The action trace of the session loop. -/
def loopActionsAux : CollectState → List (Option Event) → List LoopAction
  | _, [] => []
  | st, ev :: r =>
    match ev with
    | none => LoopAction.extractNone :: loopActionsAux st r
    | some e =>
      if eventKey e ∈ st.seen then
        LoopAction.extractAndSkip e :: loopActionsAux st r
      else
        LoopAction.extractAndAdd e ::
          loopActionsAux ⟨st.collected ++ [e], st.seen ++ [eventKey e]⟩ r

/-- Action trace of a resumed run. -/
def loopActions (init : List (String × String)) (cards : List (Option Event)) :
    List LoopAction :=
  loopActionsAux ⟨[], init⟩ cards

/-- The dependent-record (subsessions) run: a target parent URL already
in the checkpoint set is skipped before navigation; the others are
processed in order. -/
def subsProcessedList (processed : List String) (targets : List String) : List String :=
  targets.foldl (fun acc u => if u ∈ processed then acc else acc ++ [u]) []

/-- Concrete events for the resume/merge runs. -/
def evA : Event := ⟨"A", "", "", [], ""⟩

def evB : Event := ⟨"B", "", "", [], ""⟩

def evC : Event := ⟨"C", "", "", [], ""⟩

/-- C2 counterexample: in the record-level resume of the resilient
events script, a card whose identity key is already in the checkpoint
set is still extracted (the identity key is only computable from the
extraction result); only the collection step is skipped. -/
theorem resume_reextracts_seen_item_cex :
    loopActions [eventKey evA] [some evA] = [LoopAction.extractAndSkip evA] ∧
    eventKey evA ∈ [eventKey evA] :=
  ⟨by rfl, by simp⟩

theorem subsProcessed_mem_aux (processed : List String) (targets : List String) :
    ∀ (acc : List String) (u : String),
      (u ∈ targets.foldl (fun acc u => if u ∈ processed then acc else acc ++ [u]) acc ↔
        u ∈ acc ∨ (u ∈ targets ∧ u ∉ processed)) := by
  induction targets with
  | nil =>
    intro acc u
    simp
  | cons t r ih =>
    intro acc u
    rw [List.foldl_cons]
    by_cases ht : t ∈ processed
    · rw [if_pos ht, ih]
      constructor
      · rintro (h | ⟨h1, h2⟩)
        · exact Or.inl h
        · exact Or.inr ⟨List.mem_cons_of_mem _ h1, h2⟩
      · rintro (h | ⟨h1, h2⟩)
        · exact Or.inl h
        · rcases List.mem_cons.1 h1 with rfl | h1
          · exact absurd ht h2
          · exact Or.inr ⟨h1, h2⟩
    · rw [if_neg ht, ih]
      constructor
      · rintro (h | ⟨h1, h2⟩)
        · rcases List.mem_append.1 h with h | h
          · exact Or.inl h
          · rw [List.mem_singleton] at h
            subst h
            exact Or.inr ⟨List.mem_cons_self _ _, ht⟩
        · exact Or.inr ⟨List.mem_cons_of_mem _ h1, h2⟩
      · rintro (h | ⟨h1, h2⟩)
        · exact Or.inl (List.mem_append.2 (Or.inl h))
        · rcases List.mem_cons.1 h1 with rfl | h1
          · exact Or.inl (List.mem_append.2 (Or.inr (List.mem_singleton.2 rfl)))
          · exact Or.inr ⟨h1, h2⟩

theorem collectStep_seen_sub (st : CollectState) (ev : Option Event) :
    st.seen ⊆ (collectStep st ev).seen := by
  cases ev with
  | none => exact fun a h => h
  | some e =>
    simp only [collectStep]
    split
    · exact fun a h => h
    · intro a h
      exact List.mem_append.2 (Or.inl h)

theorem runCollect_aux (cards : List (Option Event)) :
    ∀ (st : CollectState) (init : List (String × String)),
      init ⊆ st.seen → (∀ e ∈ st.collected, eventKey e ∉ init) →
      init ⊆ (cards.foldl collectStep st).seen ∧
      (∀ e ∈ (cards.foldl collectStep st).collected, eventKey e ∉ init) := by
  induction cards with
  | nil =>
    intro st init h1 h2
    exact ⟨h1, h2⟩
  | cons ev r ih =>
    intro st init h1 h2
    rw [List.foldl_cons]
    apply ih
    · exact fun a ha => collectStep_seen_sub st ev (h1 ha)
    · cases ev with
      | none => exact h2
      | some e =>
        simp only [collectStep]
        split
        · exact h2
        · rename_i hnot
          intro x hx
          rcases List.mem_append.1 hx with hx | hx
          · exact h2 x hx
          · rw [List.mem_singleton] at hx
            subst hx
            intro hcontra
            exact hnot (h1 hcontra)

/-- C2 (amended): the dependent-record (subsessions) run skips a target
whose parent URL is in the checkpoint set before any navigation, so it
processes exactly the targets outside the set; the record-level
(events) run re-extracts every card but never adds an event whose
identity key was loaded from the partial file, so with partial keys
{A, B} and source {A, B, C} only C is collected. -/
theorem resume_skip_amended :
    (∀ (processed targets : List String) (u : String),
        u ∈ subsProcessedList processed targets ↔ (u ∈ targets ∧ u ∉ processed)) ∧
    subsProcessedList ["A", "B"] ["A", "B", "C"] = ["C"] ∧
    (∀ (init : List (String × String)) (cards : List (Option Event)),
        ∀ e ∈ (runCollect init cards).collected, eventKey e ∉ init) ∧
    (runCollect [eventKey evA, eventKey evB] [some evA, some evB, some evC]).collected
      = [evC] := by
  refine ⟨?_, by rfl, ?_, by rfl⟩
  · intro processed targets u
    rw [subsProcessedList, subsProcessed_mem_aux]
    simp
  · intro init cards e he
    exact (runCollect_aux cards ⟨[], init⟩ init (fun a h => h) (by simp)).2 e he

/-- Witness for the amended C2 at the {A, B} / {A, B, C} instance. -/
theorem resume_skip_amended_witness :
    ("C" ∈ subsProcessedList ["A", "B"] ["A", "B", "C"] ↔
      ("C" ∈ ["A", "B", "C"] ∧ "C" ∉ ["A", "B"])) ∧
    eventKey evC ∉ [eventKey evA, eventKey evB] :=
  ⟨resume_skip_amended.1 ["A", "B"] ["A", "B", "C"] "C",
   resume_skip_amended.2.2.1 [eventKey evA, eventKey evB]
     [some evA, some evB, some evC] evC (List.mem_singleton.2 rfl)⟩

/-- C9: the seen-key set only grows — each loop operation adds a key or
leaves the set unchanged, and every key present at the start (including
the keys loaded from the prior partial file) is still present at the
end of the run. -/
theorem checkpoint_set_monotone :
    (∀ (st : CollectState) (ev : Option Event), st.seen ⊆ (collectStep st ev).seen) ∧
    (∀ (init : List (String × String)) (cards : List (Option Event)),
        init ⊆ (runCollect init cards).seen) := by
  refine ⟨collectStep_seen_sub, ?_⟩
  intro init cards
  exact (runCollect_aux cards ⟨[], init⟩ init (fun a h => h) (by simp)).1

/-- Witness for C9 at a concrete state and key. -/
theorem checkpoint_set_monotone_witness :
    eventKey evA ∈ (collectStep ⟨[], [eventKey evA]⟩ none).seen :=
  checkpoint_set_monotone.1 ⟨[], [eventKey evA]⟩ none (by simp)

/-! ### Readiness watchdog (`scrape_events_whova_resilient.py:133-164`,
`scrape_events_whova_clickurl.py:98-139`) -/

/-- One observation of the polling loop: a loading-placeholder tick
(placeholder text plus platform marker, count check skipped) or an item
count (a failed count query is `count 0`). -/
inductive WTick
  | loading
  | count (n : Nat)
deriving DecidableEq

/-- `wait_sessions_with_watchdog` of the resilient variant: one step per
tick, timeout modelled as the end of the tick list; on exhaustion the
code returns `last if last >= 0 else 0`, where `last` is the most recent
count (initially -1). -/
def watchdogLoop (minCnt : Nat) : Int → List WTick → Int
  | last, [] => if 0 ≤ last then last else 0
  | last, WTick.loading :: r => watchdogLoop minCnt last r
  | _, WTick.count n :: r =>
    if minCnt ≤ n then (n : Int) else watchdogLoop minCnt (n : Int) r

/-- The counts observed along a tick sequence. -/
def countTicks : List WTick → List Nat
  | [] => []
  | WTick.loading :: r => countTicks r
  | WTick.count n :: r => n :: countTicks r

/-- The best (maximum) observed count — the quantity the spec says an
exhausted loop returns. -/
def bestCount (ts : List WTick) : Nat := (countTicks ts).foldl max 0

/-- Inner polling phase of the clickurl variant: `some n` when the
minimum is met. -/
def watchdogInner (minCnt : Nat) : List WTick → Option Nat
  | [] => none
  | WTick.loading :: r => watchdogInner minCnt r
  | WTick.count n :: r => if minCnt ≤ n then some n else watchdogInner minCnt r

/-- `wait_sessions_with_watchdog` of the clickurl variant with reload
escalation: one tick list per reload round; `return 0` after the rounds
are exhausted, whatever was observed. -/
def watchdogReload (minCnt : Nat) : List (List WTick) → Int
  | [] => 0
  | r :: rest =>
    match watchdogInner minCnt r with
    | some n => (n : Int)
    | none => watchdogReload minCnt rest

/-- C5 counterexample: with minimum 5 and observed counts 4 then 2, the
exhausted loop returns the most recent count 2, not the best observed
count 4. -/
theorem watchdog_not_best_count_cex :
    watchdogLoop 5 (-1) [WTick.count 4, WTick.count 2] = 2 ∧
    bestCount [WTick.count 4, WTick.count 2] = 4 ∧
    watchdogLoop 5 (-1) [WTick.count 4, WTick.count 2] ≠
      (bestCount [WTick.count 4, WTick.count 2] : Int) :=
  ⟨by rfl, by rfl, by decide⟩

/-- The last element of a count list, or a default when the list is
empty. -/
def lastOr : List Nat → Int → Int
  | [], d => d
  | n :: r, _ => lastOr r (n : Int)

theorem watchdogLoop_nonneg_aux (minCnt : Nat) (ticks : List WTick) :
    ∀ last : Int, -1 ≤ last → 0 ≤ watchdogLoop minCnt last ticks := by
  induction ticks with
  | nil =>
    intro last _
    simp only [watchdogLoop]
    split
    · assumption
    · exact le_refl 0
  | cons t r ih =>
    intro last hlast
    cases t with
    | loading => exact ih last hlast
    | count n =>
      simp only [watchdogLoop]
      split
      · exact Int.natCast_nonneg n
      · exact ih (n : Int) (le_trans (by omega) (Int.natCast_nonneg n))

theorem watchdogLoop_exhausted_aux (minCnt : Nat) (ticks : List WTick)
    (hall : ∀ n ∈ countTicks ticks, n < minCnt) :
    ∀ last : Int,
      watchdogLoop minCnt last ticks =
        lastOr (countTicks ticks) (if 0 ≤ last then last else 0) := by
  induction ticks with
  | nil =>
    intro last
    rfl
  | cons t r ih =>
    intro last
    cases t with
    | loading => exact ih (by simpa [countTicks] using hall) last
    | count n =>
      have hn : n < minCnt := hall n (by simp [countTicks])
      have hrest : ∀ m ∈ countTicks r, m < minCnt := by
        intro m hm
        exact hall m (by simp [countTicks, hm])
      simp only [watchdogLoop, if_neg (by omega : ¬ minCnt ≤ n)]
      rw [ih hrest (n : Int), if_pos (Int.natCast_nonneg n)]
      rfl

/-- C5 (amended): when the overall timeout elapses without the count
reaching the minimum, the resilient loop terminates and returns the most
recently observed count — non-negative, possibly zero, and possibly less
than the best count observed; the clickurl variant returns the observed
count when satisfied but 0 after reload exhaustion. -/
theorem watchdog_exhaustion_amended :
    (∀ (minCnt : Nat) (ticks : List WTick), 0 ≤ watchdogLoop minCnt (-1) ticks) ∧
    (∀ (minCnt : Nat) (ticks : List WTick),
        (∀ n ∈ countTicks ticks, n < minCnt) →
        watchdogLoop minCnt (-1) ticks = lastOr (countTicks ticks) 0) ∧
    (∀ (minCnt : Nat) (rounds : List (List WTick)),
        (∀ r ∈ rounds, ∀ n ∈ countTicks r, n < minCnt) →
        watchdogReload minCnt rounds = 0) := by
  refine ⟨?_, ?_, ?_⟩
  · intro minCnt ticks
    exact watchdogLoop_nonneg_aux minCnt ticks (-1) (le_refl _)
  · intro minCnt ticks hall
    rw [watchdogLoop_exhausted_aux minCnt ticks hall (-1)]
    have h0 : (if (0 : Int) ≤ -1 then (-1 : Int) else 0) = 0 := by norm_num
    rw [h0]
  · intro minCnt rounds hall
    induction rounds with
    | nil => rfl
    | cons r rest ih =>
      have hinner : watchdogInner minCnt r = none := by
        have hr : ∀ n ∈ countTicks r, n < minCnt := hall r (by simp)
        clear hall ih
        induction r with
        | nil => rfl
        | cons t rr ihr =>
          cases t with
          | loading => exact ihr (by simpa [countTicks] using hr)
          | count n =>
            have hn : n < minCnt := hr n (by simp [countTicks])
            simp only [watchdogInner, if_neg (by omega : ¬ minCnt ≤ n)]
            exact ihr (fun m hm => hr m (by simp [countTicks, hm]))
      simp only [watchdogReload, hinner]
      exact ih (fun q hq => hall q (List.mem_cons_of_mem _ hq))

/-- Witness for the amended C5: an exhausted run that observed counts
4 then 2 returns 2; a clickurl run whose rounds only saw 4 returns 0. -/
theorem watchdog_exhaustion_amended_witness :
    watchdogLoop 5 (-1) [WTick.count 4, WTick.count 2] =
      lastOr (countTicks [WTick.count 4, WTick.count 2]) 0 ∧
    watchdogReload 5 [[WTick.count 4], [WTick.count 4]] = 0 :=
  ⟨watchdog_exhaustion_amended.2.1 5 [WTick.count 4, WTick.count 2] (by decide),
   watchdog_exhaustion_amended.2.2 5 [[WTick.count 4], [WTick.count 4]] (by decide)⟩

/-! ### Frame locator (`scrape_events_whova_resilient.py:96-130`,
`scrape_events_whova_clickurl.py:51-94`) -/

/-- Abstract state of the loaded page as the locator observes it.
`sessionCount` and `iframeSrc` model browser calls that are wrapped in
`try/except` (a raised exception is `error`/`none`); `gotoOk` models the
unprotected `page.goto(src, ...)` of the direct-open fallback. -/
structure PageState where
  iframeFound : Bool
  contentFrameAccessible : Bool
  sessionCount : Except Unit Nat
  iframeSrc : Option String
  gotoOk : Bool

/-- The rendering context the locator settles on. -/
inductive FrameChoice
  | embedded
  | mainDirect
  | mainFallback
deriving DecidableEq

/-- The direct-open tail of the locator: fetch the iframe `src`
(`None` when absent or the lookup raised); with a `src`, navigate the
top-level page there — this `goto` is not wrapped, so its failure
propagates; without one, return the main frame. -/
def openDirectFallback (ps : PageState) : Except Unit (FrameChoice × Bool) :=
  match ps.iframeSrc with
  | some _ =>
    if ps.gotoOk then Except.ok (FrameChoice.mainDirect, true) else Except.error ()
  | none => Except.ok (FrameChoice.mainFallback, false)

/-- `get_whova_frame_or_open_direct`: return the embedded frame when it
is accessible and already holds session cards; otherwise fall back to
opening the iframe `src` directly, else to the main frame. -/
def getWhovaFrameOrOpenDirect (ps : PageState) : Except Unit (FrameChoice × Bool) :=
  if ps.iframeFound ∧ ps.contentFrameAccessible then
    match ps.sessionCount with
    | Except.ok n =>
      if 0 < n then Except.ok (FrameChoice.embedded, false) else openDirectFallback ps
    | Except.error _ => openDirectFallback ps
  else openDirectFallback ps

/-- C6 counterexample: an iframe whose content frame is accessible but
empty of session cards, with a `src` attribute, and a failing direct
navigation — the locator propagates the exception instead of returning a
degraded context. -/
theorem frame_locator_raises_cex :
    getWhovaFrameOrOpenDirect
        ⟨true, true, Except.ok 0, some "https://whova.com/embedded/event/x", false⟩ =
      Except.error () := by rfl

/-- C6 (amended): the locator returns a rendering context (embedded
frame, directly opened page, or top-level document as degraded result)
for every page state in which the direct-open navigation either is not
attempted (no iframe `src` is found) or succeeds; when a `src` is found
and the unprotected `goto` fails, the exception propagates to the
caller. -/
theorem frame_locator_total_amended (ps : PageState)
    (h : ps.iframeSrc = none ∨ ps.gotoOk = true) :
    ∃ c d, getWhovaFrameOrOpenDirect ps = Except.ok (c, d) := by
  have hfall : ∃ c d, openDirectFallback ps = Except.ok (c, d) := by
    cases hsrc : ps.iframeSrc with
    | none => exact ⟨FrameChoice.mainFallback, false, by simp [openDirectFallback, hsrc]⟩
    | some s =>
      rcases h with h | h
      · rw [hsrc] at h
        cases h
      · exact ⟨FrameChoice.mainDirect, true, by simp [openDirectFallback, hsrc, h]⟩
  obtain ⟨c, d, hcd⟩ := hfall
  unfold getWhovaFrameOrOpenDirect
  split
  · cases hsc : ps.sessionCount with
    | ok n =>
      by_cases hn : 0 < n
      · exact ⟨FrameChoice.embedded, false, by simp [hn]⟩
      · simp only [if_neg hn]
        exact ⟨c, d, hcd⟩
    | error e => exact ⟨c, d, hcd⟩
  · exact ⟨c, d, hcd⟩

/-- Witness for the amended C6: no iframe at all still yields the
top-level document. -/
theorem frame_locator_total_amended_witness :
    ∃ c d, getWhovaFrameOrOpenDirect ⟨false, false, Except.error (), none, false⟩ =
      Except.ok (c, d) :=
  frame_locator_total_amended ⟨false, false, Except.error (), none, false⟩ (Or.inl rfl)

/-! ### Backoff (`scrape_events_whova_resilient.py:56-68` and its use in
`main`, lines 384-418; same shape in `scrape_subsessions_resilient.py`) -/

/-- The `Backoff` object: configuration plus the attempt counter `n`. -/
structure Backoff where
  base : ℚ
  factor : ℚ
  cap : ℚ
  n : Nat
deriving DecidableEq

/-- The deterministic magnitude `min(self.cap, self.base * self.factor ** self.n)`. -/
def Backoff.level (b : Backoff) : ℚ := min b.cap (b.base * b.factor ^ b.n)

/-- One sleep duration: the magnitude scaled by the sampled jitter
factor `random.uniform(0.8, 1.2)`, passed in explicitly. -/
def Backoff.sleepDur (b : Backoff) (jitter : ℚ) : ℚ := b.level * jitter

/-- The state after one `sleep` call (`self.n += 1`). -/
def Backoff.step (b : Backoff) : Backoff := ⟨b.base, b.factor, b.cap, b.n + 1⟩

/-- `Backoff.reset` (`self.n = 0`). -/
def Backoff.reset (b : Backoff) : Backoff := ⟨b.base, b.factor, b.cap, 0⟩

/-- Outcome trace of the orchestrator around the backoff object: a
failure triggers `backoff.sleep()` with some jitter sample; a success
triggers nothing — `main` never calls `backoff.reset()`. -/
inductive BkEvent
  | failure (jitter : ℚ)
  | success

/-- The sleep durations produced over a trace. -/
def runBackoff : Backoff → List BkEvent → List ℚ
  | _, [] => []
  | b, BkEvent.success :: r => runBackoff b r
  | b, BkEvent.failure j :: r => b.sleepDur j :: runBackoff b.step r

/-- The backoff state left behind by a trace. -/
def runBackoffFinal : Backoff → List BkEvent → Backoff
  | b, [] => b
  | b, BkEvent.success :: r => runBackoffFinal b r
  | b, BkEvent.failure _ :: r => runBackoffFinal b.step r

/-- Number of failures in a trace. -/
def countFailures : List BkEvent → Nat
  | [] => 0
  | BkEvent.success :: r => countFailures r
  | BkEvent.failure _ :: r => countFailures r + 1

/-- C7 counterexample: with the configured `Backoff(base=2, factor=2,
cap=90)` and unit jitter, a failure, then a success, then another
failure sleeps 2 then 4 — the sleep after the success does not return to
the base value 2, because the orchestrator never resets the counter. -/
theorem backoff_no_reset_on_success_cex :
    runBackoff ⟨2, 2, 90, 0⟩ [BkEvent.failure 1, BkEvent.success, BkEvent.failure 1] =
      [2, 4] ∧
    (runBackoffFinal ⟨2, 2, 90, 0⟩ [BkEvent.failure 1, BkEvent.success]).n = 1 ∧
    (4 : ℚ) ≠ 2 := by
  refine ⟨?_, by rfl, by norm_num⟩
  show [Backoff.sleepDur ⟨2, 2, 90, 0⟩ 1, Backoff.sleepDur ⟨2, 2, 90, 1⟩ 1] = [2, 4]
  norm_num [Backoff.sleepDur, Backoff.level, min_def]

/-- C7 (amended): consecutive backoff sleeps with no intervening success
are non-decreasing while the exponential term stays below the cap (this
holds for the configured factor 2 ≥ 3/2 under the ±20% jitter); the
`reset` method would return the level to `min(cap, base)`, but the
orchestrators never invoke it, so the attempt counter ends at its
initial value plus the number of failures, successes notwithstanding —
the sleep after a success does not shrink back to the base value. -/
theorem backoff_growth_amended :
    (∀ (b : Backoff) (j1 j2 : ℚ), 0 ≤ b.base → 3 / 2 ≤ b.factor → 0 ≤ j1 →
        j1 ≤ 6 / 5 → 4 / 5 ≤ j2 → b.base * b.factor ^ (b.n + 1) ≤ b.cap →
        b.sleepDur j1 ≤ b.step.sleepDur j2) ∧
    (∀ b : Backoff, (Backoff.reset b).level = min b.cap b.base) ∧
    (∀ (b : Backoff) (evs : List BkEvent),
        (runBackoffFinal b evs).n = b.n + countFailures evs) := by
  refine ⟨?_, ?_, ?_⟩
  · intro b j1 j2 hb hf hj1 hj1' hj2 hcap
    have hf0 : (0 : ℚ) ≤ b.factor := by linarith
    have hpow : (0 : ℚ) ≤ b.base * b.factor ^ b.n :=
      mul_nonneg hb (pow_nonneg hf0 _)
    have hmono : b.base * b.factor ^ b.n ≤ b.base * b.factor ^ (b.n + 1) := by
      rw [pow_succ, ← mul_assoc]
      nlinarith [hpow, hf]
    have hlevel : b.level = b.base * b.factor ^ b.n := by
      rw [Backoff.level, min_eq_right (le_trans hmono hcap)]
    have hlevel2 : b.step.level = b.base * b.factor ^ (b.n + 1) :=by
      rw [Backoff.step, Backoff.level]
      exact min_eq_right hcap
    rw [Backoff.sleepDur, Backoff.sleepDur, hlevel, hlevel2, pow_succ]
    have hAf : (0 : ℚ) ≤ b.base * b.factor ^ b.n * b.factor := mul_nonneg hpow hf0
    calc b.base * b.factor ^ b.n * j1
        ≤ b.base * b.factor ^ b.n * (6 / 5) := mul_le_mul_of_nonneg_left hj1' hpow
      _ ≤ b.base * b.factor ^ b.n * b.factor * (4 / 5) := by nlinarith [hpow, hf]
      _ ≤ b.base * b.factor ^ b.n * b.factor * j2 := mul_le_mul_of_nonneg_left hj2 hAf
      _ = b.base * (b.factor ^ b.n * b.factor) * j2 := by ring
  · intro b
    simp [Backoff.reset, Backoff.level]
  · intro b evs
    induction evs generalizing b with
    | nil => simp [runBackoffFinal, countFailures]
    | cons ev r ih =>
      cases ev with
      | success => simp [runBackoffFinal, countFailures, ih b]
      | failure j =>
        simp only [runBackoffFinal, countFailures, ih]
        simp [Backoff.step]
        omega

/-- Witness for the amended C7 at the configured backoff. -/
theorem backoff_growth_amended_witness :
    Backoff.sleepDur ⟨2, 2, 90, 0⟩ 1 ≤ (Backoff.step ⟨2, 2, 90, 0⟩).sleepDur 1 :=
  backoff_growth_amended.1 ⟨2, 2, 90, 0⟩ 1 1 (by norm_num) (by norm_num) (by norm_num)
    (by norm_num) (by norm_num) (by norm_num)

/-! ### Rate limiter (`scrape_events_whova_resilient.py:39-53`) -/

/-- `self.interval = 1.0 / max(0.01, max_rps)` of the constructor. -/
def rateLimiterInterval (maxRps : ℚ) : ℚ := 1 / max (1 / 100) maxRps

/-- Completion time of one `wait()` call with zero jitter (`jmax = 0`
skips the jitter sleep).  `last` is the stored `self._last`, `now` the
entry reading of `time.time()`, and `slack ≥ 0` absorbs both sleep
overshoot and the delay of the final `time.time()` reading that becomes
the new `self._last`. -/
def waitCompletion (interval last now slack : ℚ) : ℚ :=
  if 0 < interval - (now - last) then now + (interval - (now - last)) + slack
  else now + slack

/-- The stored `_last` after a sequence of `wait()` calls.  Each list
entry `(d, s)` gives the delay from the previous completion to the call
entry and the slack of the call. -/
def lastAfterWaits (interval : ℚ) : ℚ → List (ℚ × ℚ) → ℚ
  | last, [] => last
  | last, (d, s) :: r => lastAfterWaits interval (waitCompletion interval last (last + d) s) r

theorem waitCompletion_ge (interval last d s : ℚ) (_hd : 0 ≤ d) (hs : 0 ≤ s) :
    last + interval ≤ waitCompletion interval last (last + d) s := by
  rw [waitCompletion]
  split
  · linarith
  · rename_i h
    have hid : interval ≤ d := by linarith [not_lt.1 h]
    linarith

theorem lastAfterWaits_ge (interval : ℚ) (l : List (ℚ × ℚ)) :
    ∀ t : ℚ, (∀ p ∈ l, 0 ≤ p.1 ∧ 0 ≤ p.2) →
      t + (l.length : ℚ) * interval ≤ lastAfterWaits interval t l := by
  induction l with
  | nil =>
    intro t _
    simp [lastAfterWaits]
  | cons p r ih =>
    intro t hall
    obtain ⟨d, s⟩ := p
    have hp := hall (d, s) (List.mem_cons_self _ _)
    have hstep : t + interval ≤ waitCompletion interval t (t + d) s :=
      waitCompletion_ge interval t d s hp.1 hp.2
    have hrest := ih (waitCompletion interval t (t + d) s)
      (fun q hq => hall q (List.mem_cons_of_mem _ hq))
    calc t + ((((d, s) :: r).length : ℚ)) * interval
        = (t + interval) + (r.length : ℚ) * interval := by
          simp only [List.length_cons]
          push_cast
          ring
      _ ≤ waitCompletion interval t (t + d) s + (r.length : ℚ) * interval := by
          linarith
      _ ≤ lastAfterWaits interval (waitCompletion interval t (t + d) s) r := hrest
      _ = lastAfterWaits interval t ((d, s) :: r) := by rw [lastAfterWaits]

/-- C8: with zero jitter, over `N = xs.length + 1` consecutive `wait()`
calls with inter-action interval `interval`, the wall time elapsed
between the completion of the first call and the completion of the last
call is at least `(N - 1) * interval` — each call completes at least
`interval` after the stored previous completion. -/
theorem rate_limiter_spacing (interval : ℚ) (x : ℚ × ℚ) (xs : List (ℚ × ℚ))
    (hx1 : 0 ≤ x.1) (hx2 : 0 ≤ x.2)
    (hxs : ∀ p ∈ xs, 0 ≤ p.1 ∧ 0 ≤ p.2) :
    lastAfterWaits interval 0 [x] + (xs.length : ℚ) * interval ≤
      lastAfterWaits interval 0 (x :: xs) := by
  obtain ⟨d, s⟩ := x
  have h1 : lastAfterWaits interval 0 [(d, s)] = waitCompletion interval 0 (0 + d) s := by
    rw [lastAfterWaits, lastAfterWaits]
  rw [h1]
  rw [show lastAfterWaits interval 0 ((d, s) :: xs) =
      lastAfterWaits interval (waitCompletion interval 0 (0 + d) s) xs from rfl]
  exact lastAfterWaits_ge interval xs (waitCompletion interval 0 (0 + d) s) hxs

/-- Witness for C8: two back-to-back calls with interval 1 and no slack. -/
theorem rate_limiter_spacing_witness :
    lastAfterWaits 1 0 [((0 : ℚ), (0 : ℚ))] + (([((0 : ℚ), (0 : ℚ))].length : ℚ)) * 1 ≤
      lastAfterWaits 1 0 [((0 : ℚ), (0 : ℚ)), ((0 : ℚ), (0 : ℚ))] :=
  rate_limiter_spacing 1 ((0 : ℚ), (0 : ℚ)) [((0 : ℚ), (0 : ℚ))] (le_refl 0) (le_refl 0)
    (by intro p hp; rw [List.mem_singleton] at hp; subst hp; exact ⟨le_refl 0, le_refl 0⟩)

end ConfStats
